import Mathlib

set_option maxRecDepth 16000

/-!
Shallow embedding of the `nz-rs` refined numeric types, translated from the
Rust sources `src/nzint.rs`, `src/nzfloat.rs` and `src/nzsign.rs`.

* `NzInt` wraps one signed 64-bit integer, modelled as a `ℤ` whose validity
  predicate states non-zeroness and membership in the i64 range.  i64
  arithmetic with two's-complement wraparound is modelled by `wrap64`
  (reduction modulo 2^64 recentred into `[-2^63, 2^63)`).
* `NzFloat` wraps one IEEE-754 binary64 value, modelled by the inductive
  `F64`: a NaN, a signed infinity, a signed zero, or a signed finite dyadic
  magnitude `m * 2^e`.  The arithmetic follows the IEEE-754 special-value
  tables, with finite-by-finite operations computed exactly over `ℚ` and
  rounded to the binary64 grid by round-to-nearest, ties-to-even
  (`roundPos`/`roundQ`).  Genuine binary64 finite values carry a non-zero
  mantissa; the validity predicate used by every theorem rules the junk
  forms out because their IEEE equality with `0.0` holds.
* `nzSign` is the closed two-variant sign/boolean enumeration.
-/

/-! ## i64 model -/

/-- Two's-complement wraparound of a mathematical integer into the signed
64-bit range `[-2^63, 2^63)`, i.e. reduction modulo `2^64` recentred. -/
def wrap64 (x : ℤ) : ℤ := (x + 2 ^ 63) % 2 ^ 64 - 2 ^ 63

/-- `i64::MIN`. -/
def i64min : ℤ := -2 ^ 63

/-! ## nzint.rs -/

/-- Error type for nzint operations (`NzError` in `src/nzint.rs`). -/
inductive NzError where
  /-- The result would be zero. -/
  | ZeroResult
  /-- Integer division overflow (e.g., i64::MIN / -1). -/
  | DivOverflow
deriving DecidableEq, Repr

deriving instance DecidableEq for Except

/-- `NzInt` from `src/nzint.rs`: a wrapper around one i64.  The Rust type is
backed by `NonZeroI64`; here the wrapped integer is a plain `ℤ` and the
non-zero plus 64-bit-range invariant is the predicate `NzInt.valid`. -/
structure NzInt where
  value : ℤ
deriving DecidableEq, Repr

/-- The representation invariant of `NzInt`: the wrapped integer is a
non-zero value of the signed 64-bit range. -/
def NzInt.valid (a : NzInt) : Prop :=
  a.value ≠ 0 ∧ i64min ≤ a.value ∧ a.value < 2 ^ 63

instance (a : NzInt) : Decidable a.valid := by
  unfold NzInt.valid; infer_instance

/-- `NzInt::new`: create a new NzInt, `none` if the argument is 0
(`NonZeroI64::new(v).map(NzInt)`). -/
def NzInt.new (v : ℤ) : Option NzInt :=
  if v = 0 then none else some ⟨v⟩

/-- `NzInt::get`. -/
def NzInt.get (a : NzInt) : ℤ := a.value

/-- `TryFrom<i64> for NzInt`: `NzInt::new(v).ok_or(NzError::ZeroResult)`. -/
def NzInt.try_from (v : ℤ) : Except NzError NzInt :=
  match NzInt.new v with
  | some a => .ok a
  | none => .error .ZeroResult

/-- `NzInt::checked_add`: `overflowing_add` (wrapping sum plus an overflow
flag, the flag being true exactly when the wrapped sum differs from the
mathematical sum), then in either branch fail with `ZeroResult` when the
wrapped sum is 0 and succeed with it otherwise. -/
def NzInt.checked_add (a b : NzInt) : Except NzError NzInt :=
  let s := a.get + b.get
  let res := wrap64 s
  if res ≠ s then
    if res = 0 then .error .ZeroResult
    else .ok ⟨res⟩
  else
    if res = 0 then .error .ZeroResult
    else .ok ⟨res⟩

/-- `NzInt::checked_sub`, same shape as `checked_add` with
`overflowing_sub`. -/
def NzInt.checked_sub (a b : NzInt) : Except NzError NzInt :=
  let s := a.get - b.get
  let res := wrap64 s
  if res ≠ s then
    if res = 0 then .error .ZeroResult
    else .ok ⟨res⟩
  else
    if res = 0 then .error .ZeroResult
    else .ok ⟨res⟩

/-- `NzInt::checked_mul`, same shape with `overflowing_mul`. -/
def NzInt.checked_mul (a b : NzInt) : Except NzError NzInt :=
  let s := a.get * b.get
  let res := wrap64 s
  if res ≠ s then
    if res = 0 then .error .ZeroResult
    else .ok ⟨res⟩
  else
    if res = 0 then .error .ZeroResult
    else .ok ⟨res⟩

/-- `NzInt::checked_div`: Rust `/` on i64 truncates toward zero
(`Int.tdiv`); `DivOverflow` on `i64::MIN / -1`, then `ZeroResult` when the
truncated quotient is 0. -/
def NzInt.checked_div (a b : NzInt) : Except NzError NzInt :=
  if a.get = i64min ∧ b.get = -1 then .error .DivOverflow
  else
    let q := Int.tdiv a.get b.get
    if q = 0 then .error .ZeroResult
    else .ok ⟨q⟩

/-- `NzInt::checked_neg`: `DivOverflow` when negating `i64::MIN`. -/
def NzInt.checked_neg (a : NzInt) : Except NzError NzInt :=
  if a.get = i64min then .error .DivOverflow
  else .ok ⟨-a.get⟩

/-- `NzInt::checked_abs`: `DivOverflow` for `i64::MIN`. -/
def NzInt.checked_abs (a : NzInt) : Except NzError NzInt :=
  if a.get = i64min then .error .DivOverflow
  else .ok ⟨|a.get|⟩

/-- `NzInt::signum`: +1 for positive, -1 for non-positive values. -/
def NzInt.signum (a : NzInt) : NzInt :=
  if a.get > 0 then ⟨1⟩ else ⟨-1⟩

/-- `NzInt::one`. -/
def NzInt.one : NzInt := ⟨1⟩

/-- `NzInt::neg_one`. -/
def NzInt.neg_one : NzInt := ⟨-1⟩

/-! ## nzsign.rs -/

/-- The two-variant sign/boolean enumeration (`nzSign` in `src/nzsign.rs`):
`Neg` represents -1/false, `Pos` represents +1/true. -/
inductive nzSign where
  | Neg
  | Pos
deriving DecidableEq, Repr

/-- `nzSign::is_true`. -/
def nzSign.is_true : nzSign → Bool
  | .Pos => true
  | .Neg => false

/-- `nzSign::is_false`. -/
def nzSign.is_false : nzSign → Bool
  | .Neg => true
  | .Pos => false

/-- `nzSign::not`: logical NOT staying in the ±1 domain. -/
def nzSign.not (s : nzSign) : nzSign :=
  if s.is_true then .Neg else .Pos

/-- `nzSign::and`: `(Pos, Pos) -> Pos`, otherwise `Neg`. -/
def nzSign.and (s rhs : nzSign) : nzSign :=
  if s.is_false then .Neg else rhs

/-- `nzSign::or`: `(Neg, Neg) -> Neg`, otherwise `Pos`. -/
def nzSign.or (s rhs : nzSign) : nzSign :=
  if s.is_true then .Pos else rhs

/-- `nzSign::xor`. -/
def nzSign.xor (s rhs : nzSign) : nzSign :=
  if s = rhs then .Neg else .Pos

/-- `nzSign::to_i8`. -/
def nzSign.to_i8 : nzSign → ℤ
  | .Pos => 1
  | .Neg => -1

/-- `nzSign::from_i8`. -/
def nzSign.from_i8 (v : ℤ) : Option nzSign :=
  if v = 1 then some .Pos else if v = -1 then some .Neg else none

/-! ## IEEE-754 binary64 model

An `F64` value is a NaN (the model keeps one NaN, standing for the positive
quiet NaN that Rust operations produce), a signed infinity, a signed zero,
or a signed finite magnitude `m * 2^e` (`neg = true` is the sign bit set).
Genuine binary64 finite values have `m ≠ 0`; forms with `m = 0` denote no
float, and the `NzFloat` validity predicate excludes them since they
compare IEEE-equal to `0.0`. -/

inductive F64 where
  | nan
  | inf (neg : Bool)
  | zero (neg : Bool)
  | finite (neg : Bool) (m : ℕ) (e : ℤ)
deriving DecidableEq, Repr

/-- `+0.0`. -/
def fzero : F64 := .zero false

/-- `2^e` as a rational, for an integer exponent.  The powers are taken in
`ℕ` and cast, so that large concrete exponents evaluate fast. -/
def pow2 : ℤ → ℚ
  | .ofNat n => ((2 ^ n : ℕ) : ℚ)
  | .negSucc n => 1 / ((2 ^ (n + 1) : ℕ) : ℚ)

/-- The rational value denoted by an `F64` (0 for NaN and the infinities,
which is never used on those constructors). -/
def F64.toQ : F64 → ℚ
  | .nan => 0
  | .inf _ => 0
  | .zero _ => 0
  | .finite neg m e => (if neg then -1 else 1) * m * pow2 e

/-- `f64::is_nan`. -/
def F64.isNan : F64 → Bool
  | .nan => true
  | _ => false

/-- IEEE-754 equality `==` on binary64: NaN equals nothing (itself
included), `+0.0 == -0.0`, infinities compare by sign, finite values by
numeric value. -/
def F64.feq (a b : F64) : Bool :=
  match a, b with
  | .nan, _ => false
  | _, .nan => false
  | .inf s, .inf t => s == t
  | .inf _, _ => false
  | _, .inf _ => false
  | x, y => decide (x.toQ = y.toQ)

/-- IEEE-754 negation (sign-bit flip). -/
def F64.fneg : F64 → F64
  | .nan => .nan
  | .inf s => .inf (!s)
  | .zero s => .zero (!s)
  | .finite s m e => .finite (!s) m e

/-- `⌊log₂ y⌋` for `1 ≤ y < 2^4096` (and 0 for `y = 0`), determined bit by
bit from the high bit of the exponent down, so that evaluation is a short
fold rather than a deep recursion (`Nat.log2` itself is defined by
well-founded recursion, which the evaluator cannot unfold). -/
def natLog2 (y : ℕ) : ℕ :=
  (List.range 12).foldl
    (fun acc i =>
      let acc2 := acc + 2 ^ (11 - i)
      if 2 ^ acc2 ≤ y then acc2 else acc)
    0

/-- `⌊log₂ x⌋` for a positive rational `x ≥ 2^(-1022)`, computed by scaling
the fraction up by `2^1100` and taking the integer base-2 logarithm. -/
def floorLog2Q (x : ℚ) : ℤ :=
  (natLog2 (x.num.toNat * 2 ^ 1100 / x.den) : ℤ) - 1100

/-- Round a non-negative rational to the nearest natural number, ties to
even. -/
def rneQ (y : ℚ) : ℕ :=
  let f := y.floor.toNat
  let r := y - f
  if r < 1 / 2 then f
  else if 1 / 2 < r then f + 1
  else if f % 2 = 0 then f else f + 1

/-- Round a positive rational to binary64 by round-to-nearest ties-to-even:
pick the grid exponent `g` (`E - 52` for a normal binade `E`, `-1074` below
the normal range), round onto the grid, then map to zero on total underflow
and to `+∞` when the rounded magnitude reaches `2^1024`. -/
def roundPos (x : ℚ) : F64 :=
  let E : ℤ := if x * ((2 ^ 1022 : ℕ) : ℚ) < 1 then -1022 else floorLog2Q x
  let g : ℤ := E - 52
  let n : ℕ := rneQ (x * pow2 (-g))
  if n = 0 then .zero false
  else if ((2 ^ 1024 : ℕ) : ℚ) ≤ (n : ℚ) * pow2 g then .inf false
  else .finite false n g

/-- Round a non-zero rational to binary64 (round-to-nearest ties-to-even),
preserving the sign through underflow to a signed zero. -/
def roundQ (x : ℚ) : F64 :=
  if x < 0 then (roundPos (-x)).fneg else roundPos x

/-- IEEE-754 binary64 addition.  Special values follow the IEEE tables
(`∞ + ∞` of opposite signs is NaN); for zero and finite operands the exact
rational sum is formed, an exactly-zero sum gives `+0.0` in
round-to-nearest (except `-0.0 + -0.0 = -0.0`), and otherwise the sum is
rounded. -/
def F64.fadd (a b : F64) : F64 :=
  match a, b with
  | .nan, _ => .nan
  | _, .nan => .nan
  | .inf s, .inf t => if s = t then .inf s else .nan
  | .inf s, _ => .inf s
  | _, .inf t => .inf t
  | x, y =>
    let q := x.toQ + y.toQ
    if q = 0 then
      match x, y with
      | .zero true, .zero true => .zero true
      | _, _ => .zero false
    else roundQ q

/-- IEEE-754 binary64 subtraction: `x - y = x + (-y)` exactly. -/
def F64.fsub (a b : F64) : F64 := a.fadd b.fneg

/-- Sign of a zero or finite `F64` (used for the sign of products and
quotients). -/
def F64.sign : F64 → Bool
  | .nan => false
  | .inf s => s
  | .zero s => s
  | .finite s _ _ => s

/-- IEEE-754 binary64 multiplication: `∞ * 0` is NaN, otherwise infinities
and zeros multiply by xor of the signs, and finite products are computed
exactly and rounded (underflow keeps the sign). -/
def F64.fmul (a b : F64) : F64 :=
  match a, b with
  | .nan, _ => .nan
  | _, .nan => .nan
  | .inf s, .inf t => .inf (xor s t)
  | .inf _, .zero _ => .nan
  | .zero _, .inf _ => .nan
  | .inf s, .finite t _ _ => .inf (xor s t)
  | .finite s _ _, .inf t => .inf (xor s t)
  | x, y =>
    let q := x.toQ * y.toQ
    if q = 0 then .zero (xor x.sign y.sign)
    else roundQ q

/-- IEEE-754 binary64 division: `∞ / ∞` and `0 / 0` are NaN, division by
zero gives a signed infinity, division by infinity a signed zero, and
finite quotients are computed exactly and rounded. -/
def F64.fdiv (a b : F64) : F64 :=
  match a, b with
  | .nan, _ => .nan
  | _, .nan => .nan
  | .inf _, .inf _ => .nan
  | .zero _, .zero _ => .nan
  | .inf s, .zero t => .inf (xor s t)
  | .inf s, .finite t _ _ => .inf (xor s t)
  | .zero s, .inf t => .zero (xor s t)
  | .finite s _ _, .inf t => .zero (xor s t)
  | .finite s _ _, .zero t => .inf (xor s t)
  | .zero s, .finite t _ _ => .zero (xor s t)
  | x, y =>
    let q := x.toQ / y.toQ
    if q = 0 then .zero (xor x.sign y.sign)
    else roundQ q

/-- The key realising `f64::total_cmp`: the bit-pattern total order
`-∞ < negative finite < -0.0 < +0.0 < positive finite < +∞ < NaN` (the one
modelled NaN stands for the positive quiet NaN), with finite values of one
sign ordered by numeric value. -/
def F64.fkey (x : F64) : ℤ × ℚ :=
  match x with
  | .nan => (4, 0)
  | .inf b => (if b then -3 else 3, 0)
  | .zero b => (if b then -1 else 1, 0)
  | .finite b m e => (if b then -2 else 2, (if b then -1 else 1) * m * pow2 e)

/-- Three-way comparison of integers (`lt`/`eq`/`gt`). -/
def cmpZ (x y : ℤ) : Ordering :=
  if x < y then .lt else if x = y then .eq else .gt

/-- Three-way comparison of rationals. -/
def cmpQ (x y : ℚ) : Ordering :=
  if x < y then .lt else if x = y then .eq else .gt

/-- `f64::total_cmp`: lexicographic comparison of the keys. -/
def F64.ftotal_cmp (a b : F64) : Ordering :=
  (cmpZ a.fkey.1 b.fkey.1).then (cmpQ a.fkey.2 b.fkey.2)

/-! ## nzfloat.rs -/

/-- Error type for nzfloat operations (`NzfError` in `src/nzfloat.rs`). -/
inductive NzfError where
  /-- result is 0.0 or -0.0 -/
  | ZeroResult
  /-- NaN encountered -/
  | NotANumber
deriving DecidableEq, Repr

/-- `NzFloat` from `src/nzfloat.rs`: a wrapper around one binary64 value.
The invariant (never `0.0`, `-0.0` or NaN) is the predicate
`NzFloat.valid`. -/
structure NzFloat where
  value : F64
deriving DecidableEq, Repr

/-- The representation invariant of `NzFloat`, exactly the check of the
constructor: the wrapped value is not IEEE-equal to `0.0` and not NaN. -/
def NzFloat.valid (a : NzFloat) : Prop :=
  a.value.feq fzero = false ∧ a.value.isNan = false

instance (a : NzFloat) : Decidable a.valid := by
  unfold NzFloat.valid; infer_instance

/-- `NzFloat::new`: rejects `0.0`, `-0.0`, NaN. -/
def NzFloat.new (v : F64) : Option NzFloat :=
  if v.feq fzero || v.isNan then none else some ⟨v⟩

/-- `NzFloat::get`. -/
def NzFloat.get (a : NzFloat) : F64 := a.value

/-- `TryFrom<f64> for NzFloat`:
`NzFloat::new(v).ok_or(NzfError::ZeroResult)`. -/
def NzFloat.try_from (v : F64) : Except NzfError NzFloat :=
  match NzFloat.new v with
  | some a => .ok a
  | none => .error .ZeroResult

/-- `NzFloat::checked_add`: raw IEEE sum, then `NotANumber` if it is NaN,
then `ZeroResult` if it equals `0.0`, else success. -/
def NzFloat.checked_add (a b : NzFloat) : Except NzfError NzFloat :=
  let r := a.value.fadd b.value
  if r.isNan then .error .NotANumber
  else if r.feq fzero then .error .ZeroResult
  else .ok ⟨r⟩

/-- `NzFloat::checked_sub`. -/
def NzFloat.checked_sub (a b : NzFloat) : Except NzfError NzFloat :=
  let r := a.value.fsub b.value
  if r.isNan then .error .NotANumber
  else if r.feq fzero then .error .ZeroResult
  else .ok ⟨r⟩

/-- `NzFloat::checked_mul`. -/
def NzFloat.checked_mul (a b : NzFloat) : Except NzfError NzFloat :=
  let r := a.value.fmul b.value
  if r.isNan then .error .NotANumber
  else if r.feq fzero then .error .ZeroResult
  else .ok ⟨r⟩

/-- `NzFloat::checked_div` (IEEE-754, allows ±inf). -/
def NzFloat.checked_div (a b : NzFloat) : Except NzfError NzFloat :=
  let r := a.value.fdiv b.value
  if r.isNan then .error .NotANumber
  else if r.feq fzero then .error .ZeroResult
  else .ok ⟨r⟩

/-- `Ord for NzFloat`: `self.0.total_cmp(&other.0)`. -/
def NzFloat.cmp (a b : NzFloat) : Ordering :=
  a.value.ftotal_cmp b.value

/-- The strict order induced by `Ord for NzFloat` (`a < b` iff `cmp` says
`Less`). -/
def NzFloat.lt (a b : NzFloat) : Prop :=
  a.cmp b = .lt

instance (a b : NzFloat) : Decidable (a.lt b) := by
  unfold NzFloat.lt; infer_instance

/-- `PartialEq for NzFloat`: IEEE `==` on the wrapped values. -/
def NzFloat.eqb (a b : NzFloat) : Bool :=
  a.value.feq b.value

/-! ## Helper lemmas -/

lemma wrap64_bounds (x : ℤ) : i64min ≤ wrap64 x ∧ wrap64 x < 2 ^ 63 := by
  unfold wrap64 i64min
  have h1 : 0 ≤ (x + 2 ^ 63) % 2 ^ 64 := Int.emod_nonneg _ (by norm_num)
  have h2 : (x + 2 ^ 63) % 2 ^ 64 < 2 ^ 64 := Int.emod_lt_of_pos _ (by norm_num)
  omega

/-- The shared shape of `checked_add`/`checked_sub`/`checked_mul`: both the
overflowing and the non-overflowing branch succeed exactly on a non-zero
wrapped result. -/
lemma wrap_branch_spec (s : ℤ) :
    (if wrap64 s ≠ s then
        if wrap64 s = 0 then (.error .ZeroResult : Except NzError NzInt)
        else .ok ⟨wrap64 s⟩
      else
        if wrap64 s = 0 then .error .ZeroResult
        else .ok ⟨wrap64 s⟩) =
      (if wrap64 s = 0 then .error .ZeroResult else .ok ⟨wrap64 s⟩) := by
  split_ifs <;> rfl

lemma checked_add_eq (a b : NzInt) :
    a.checked_add b =
      (if wrap64 (a.value + b.value) = 0 then .error .ZeroResult
        else .ok ⟨wrap64 (a.value + b.value)⟩) := by
  simpa only [NzInt.checked_add, NzInt.get] using wrap_branch_spec (a.value + b.value)

lemma checked_sub_eq (a b : NzInt) :
    a.checked_sub b =
      (if wrap64 (a.value - b.value) = 0 then .error .ZeroResult
        else .ok ⟨wrap64 (a.value - b.value)⟩) := by
  simpa only [NzInt.checked_sub, NzInt.get] using wrap_branch_spec (a.value - b.value)

lemma checked_mul_eq (a b : NzInt) :
    a.checked_mul b =
      (if wrap64 (a.value * b.value) = 0 then .error .ZeroResult
        else .ok ⟨wrap64 (a.value * b.value)⟩) := by
  simpa only [NzInt.checked_mul, NzInt.get] using wrap_branch_spec (a.value * b.value)

/-- A truncated quotient of i64 values other than `i64::MIN / -1` is again
an i64 value. -/
lemma tdiv_range {a b : ℤ} (ha : a ≠ 0 ∧ i64min ≤ a ∧ a < 2 ^ 63)
    (hb : b ≠ 0 ∧ i64min ≤ b ∧ b < 2 ^ 63)
    (hod : ¬(a = i64min ∧ b = -1)) :
    i64min ≤ Int.tdiv a b ∧ Int.tdiv a b < 2 ^ 63 := by
  have hq : (Int.tdiv a b).natAbs ≤ a.natAbs := by
    rw [Int.natAbs_tdiv]; exact Nat.div_le_self _ _
  have hA : a.natAbs ≤ 2 ^ 63 := by
    rcases ha with ⟨_, hlo, hhi⟩; unfold i64min at hlo; omega
  have hne : Int.tdiv a b ≠ 2 ^ 63 := by
    intro hq63
    have hnA : a.natAbs / b.natAbs = 2 ^ 63 := by
      have h := (Int.natAbs_tdiv a b).symm
      rw [hq63] at h
      exact h.trans (by norm_num)
    have hA63 : a.natAbs = 2 ^ 63 :=
      le_antisymm hA (by calc 2 ^ 63 = a.natAbs / b.natAbs := hnA.symm
                           _ ≤ a.natAbs := Nat.div_le_self _ _)
    have hb1 : b.natAbs = 1 := by
      rcases Nat.div_eq_self.mp (by rw [hA63] at hnA; exact hnA) with h | h
      · exact absurd h (by positivity)
      · exact h
    have haMin : a = i64min := by unfold i64min at *; omega
    have hbOne : b = 1 := by
      rcases hb with ⟨_, _, _⟩
      have : b = 1 ∨ b = -1 := by omega
      rcases this with h | h
      · exact h
      · exact absurd ⟨haMin, h⟩ hod
    rw [hbOne, Int.tdiv_one, haMin] at hq63
    unfold i64min at hq63; omega
  unfold i64min at *; omega

lemma new_some_valid {v : ℤ} {a : NzInt} (h1 : i64min ≤ v) (h2 : v < 2 ^ 63)
    (h : NzInt.new v = some a) : a.valid := by
  unfold NzInt.new at h
  split_ifs at h with h0
  cases h
  simp only [NzInt.valid]
  exact ⟨h0, h1, h2⟩

lemma wrap_ok_valid {s : ℤ} {c : NzInt}
    (h : (if wrap64 s = 0 then (.error .ZeroResult : Except NzError NzInt)
          else .ok ⟨wrap64 s⟩) = .ok c) : c.valid := by
  split_ifs at h with h0
  cases h
  simp only [NzInt.valid]
  exact ⟨h0, (wrap64_bounds s).1, (wrap64_bounds s).2⟩

/-! ## Claim theorems: the integer type -/

/-- C3: every `NzInt` obtainable from the public API — fallible
construction (`new` and `TryFrom<i64>`), `checked_add`, `checked_sub`,
`checked_mul`, `checked_div`, `checked_neg`, `checked_abs`, `signum`,
`one`, `neg_one` — wraps a non-zero signed 64-bit integer: no operation
ever returns an `NzInt` whose wrapped value is 0 or out of range. -/
theorem nzint_invariant_closure :
    (∀ v : ℤ, i64min ≤ v → v < 2 ^ 63 → ∀ a : NzInt, NzInt.new v = some a → a.valid) ∧
    (∀ v : ℤ, i64min ≤ v → v < 2 ^ 63 → ∀ a : NzInt, NzInt.try_from v = .ok a → a.valid) ∧
    (∀ a b c : NzInt, a.valid → b.valid → a.checked_add b = .ok c → c.valid) ∧
    (∀ a b c : NzInt, a.valid → b.valid → a.checked_sub b = .ok c → c.valid) ∧
    (∀ a b c : NzInt, a.valid → b.valid → a.checked_mul b = .ok c → c.valid) ∧
    (∀ a b c : NzInt, a.valid → b.valid → a.checked_div b = .ok c → c.valid) ∧
    (∀ a c : NzInt, a.valid → a.checked_neg = .ok c → c.valid) ∧
    (∀ a c : NzInt, a.valid → a.checked_abs = .ok c → c.valid) ∧
    (∀ a : NzInt, (a.signum).valid) ∧
    NzInt.one.valid ∧ NzInt.neg_one.valid := by
  refine ⟨?_, ?_, ?_, ?_, ?_, ?_, ?_, ?_, ?_, by decide, by decide⟩
  · intro v h1 h2 a h
    exact new_some_valid h1 h2 h
  · intro v h1 h2 a h
    unfold NzInt.try_from at h
    cases hnew : NzInt.new v with
    | none => rw [hnew] at h; cases h
    | some x =>
      rw [hnew] at h
      simp only [Except.ok.injEq] at h
      subst h
      exact new_some_valid h1 h2 hnew
  · intro a b c _ _ h
    rw [checked_add_eq] at h
    exact wrap_ok_valid h
  · intro a b c _ _ h
    rw [checked_sub_eq] at h
    exact wrap_ok_valid h
  · intro a b c _ _ h
    rw [checked_mul_eq] at h
    exact wrap_ok_valid h
  · intro a b c ha hb h
    simp only [NzInt.checked_div, NzInt.get] at h
    split_ifs at h with h1 h2
    cases h
    simp only [NzInt.valid]
    exact ⟨h2, (tdiv_range ha hb h1).1, (tdiv_range ha hb h1).2⟩
  · intro a c ha h
    simp only [NzInt.checked_neg, NzInt.get] at h
    split_ifs at h with h1
    cases h
    rcases ha with ⟨h0, hlo, hhi⟩
    simp only [NzInt.valid]
    refine ⟨by simpa using h0, ?_, ?_⟩ <;> (unfold i64min at *; omega)
  · intro a c ha h
    simp only [NzInt.checked_abs, NzInt.get] at h
    split_ifs at h with h1
    cases h
    rcases ha with ⟨h0, hlo, hhi⟩
    simp only [NzInt.valid]
    refine ⟨by simpa using h0, ?_, ?_⟩ <;>
      (rcases abs_cases a.value with ⟨he, _⟩ | ⟨he, _⟩ <;> (unfold i64min at *; omega))
  · intro a
    unfold NzInt.signum NzInt.get
    split_ifs <;> decide

/-- Witness for C3: `checked_add` output at a concrete valid input is
valid. -/
theorem nzint_invariant_closure_witness : NzInt.valid ⟨12⟩ :=
  nzint_invariant_closure.2.2.1 ⟨5⟩ ⟨7⟩ ⟨12⟩ (by decide) (by decide)
    (by with_unfolding_all rfl)

/-- C4: for valid operands, `checked_add` fails with `ZeroResult` iff the
two's-complement (wrapping, modulo 2^64) sum is exactly zero, otherwise
succeeds with exactly that possibly-wrapped sum, and never reports
`DivOverflow` (signed overflow by itself is not an error). -/
theorem nzint_checked_add_spec (a b : NzInt) (_ha : a.valid) (_hb : b.valid) :
    (a.checked_add b = .error .ZeroResult ↔ wrap64 (a.value + b.value) = 0) ∧
    (wrap64 (a.value + b.value) ≠ 0 →
      a.checked_add b = .ok ⟨wrap64 (a.value + b.value)⟩) ∧
    a.checked_add b ≠ .error .DivOverflow := by
  rw [checked_add_eq]
  split_ifs with h <;> simp_all

/-- Witness for C4 at `5 + 7`. -/
theorem nzint_checked_add_spec_witness :
    NzInt.checked_add ⟨5⟩ ⟨7⟩ = .ok ⟨wrap64 (5 + 7)⟩ :=
  (nzint_checked_add_spec ⟨5⟩ ⟨7⟩ (by decide) (by decide)).2.1 (by decide)

/-- C5: for valid operands, `checked_div` fails with `DivOverflow` iff the
dividend is `i64::MIN` and the divisor is `-1`; otherwise it fails with
`ZeroResult` iff the quotient truncated toward zero is exactly zero, and
succeeds with that truncated quotient otherwise; `3 / 2` succeeds with `1`
and `2 / 7` fails with `ZeroResult`. -/
theorem nzint_checked_div_spec (a b : NzInt) (_ha : a.valid) (_hb : b.valid) :
    (a.checked_div b = .error .DivOverflow ↔ a.value = i64min ∧ b.value = -1) ∧
    (¬(a.value = i64min ∧ b.value = -1) →
      ((a.checked_div b = .error .ZeroResult ↔ Int.tdiv a.value b.value = 0) ∧
        (Int.tdiv a.value b.value ≠ 0 →
          a.checked_div b = .ok ⟨Int.tdiv a.value b.value⟩))) ∧
    NzInt.checked_div ⟨3⟩ ⟨2⟩ = .ok ⟨1⟩ ∧
    NzInt.checked_div ⟨2⟩ ⟨7⟩ = .error .ZeroResult := by
  refine ⟨?_, ?_, by with_unfolding_all rfl, by with_unfolding_all rfl⟩ <;>
  · simp only [NzInt.checked_div, NzInt.get]
    split_ifs <;> simp_all

/-- Witness for C5 at `3 / 2`. -/
theorem nzint_checked_div_spec_witness :
    NzInt.checked_div ⟨3⟩ ⟨2⟩ = .ok ⟨Int.tdiv 3 2⟩ :=
  ((nzint_checked_div_spec ⟨3⟩ ⟨2⟩ (by decide) (by decide)).2.1
    (by decide)).2 (by decide)

/-- C6: for a valid operand, `checked_neg` and `checked_abs` fail with
`DivOverflow` iff the operand is `i64::MIN`; for every other non-zero i64
both succeed (with the negation, respectively the absolute value), and
neither ever fails with `ZeroResult`. -/
theorem nzint_neg_abs_spec (a : NzInt) (_ha : a.valid) :
    (a.checked_neg = .error .DivOverflow ↔ a.value = i64min) ∧
    (a.checked_abs = .error .DivOverflow ↔ a.value = i64min) ∧
    (a.value ≠ i64min →
      a.checked_neg = .ok ⟨-a.value⟩ ∧ a.checked_abs = .ok ⟨|a.value|⟩) ∧
    a.checked_neg ≠ .error .ZeroResult ∧
    a.checked_abs ≠ .error .ZeroResult := by
  simp only [NzInt.checked_neg, NzInt.checked_abs, NzInt.get]
  split_ifs with h <;> simp_all

/-- Witness for C6 at `5`. -/
theorem nzint_neg_abs_spec_witness :
    NzInt.checked_neg ⟨5⟩ = .ok ⟨-(5 : ℤ)⟩ ∧
    NzInt.checked_abs ⟨5⟩ = .ok ⟨|(5 : ℤ)|⟩ :=
  (nzint_neg_abs_spec ⟨5⟩ (by decide)).2.2.1 (by decide)

/-- C10: the `ZeroResult` failure of `checked_mul` is reachable from valid
(non-zero) operands: `2^32 * 2^32` wraps to exactly 0 in 64 bits. -/
theorem nzint_mul_zero_reachable :
    NzInt.valid ⟨2 ^ 32⟩ ∧
    NzInt.checked_mul ⟨2 ^ 32⟩ ⟨2 ^ 32⟩ = .error .ZeroResult := by
  exact ⟨by decide, by with_unfolding_all rfl⟩

/-! ## Claim theorems: the sign type -/

/-- C9: truth tables of the `nzSign` connectives: `and` yields `Pos` iff
both operands are `Pos`, `or` yields `Neg` iff both are `Neg`, `xor`
yields `Pos` iff the operands differ, and `not` is an involution. -/
theorem nzsign_connectives_spec :
    ∀ x y : nzSign,
      (x.and y = .Pos ↔ x = .Pos ∧ y = .Pos) ∧
      (x.or y = .Neg ↔ x = .Neg ∧ y = .Neg) ∧
      (x.xor y = .Pos ↔ x ≠ y) ∧
      x.not.not = x := by
  intro x y
  cases x <;> cases y <;> decide

/-! ## Helper lemmas for the float model -/

lemma pow2_pos (e : ℤ) : 0 < pow2 e := by
  cases e with
  | ofNat n => simp only [pow2]; positivity
  | negSucc n => simp only [pow2]; positivity

lemma fneg_isNan (x : F64) : x.fneg.isNan = x.isNan := by
  cases x <;> rfl

lemma roundPos_isNan (x : ℚ) : (roundPos x).isNan = false := by
  simp only [roundPos]
  split_ifs <;> rfl

lemma roundQ_isNan (x : ℚ) : (roundQ x).isNan = false := by
  simp only [roundQ]
  split_ifs
  · rw [fneg_isNan]; exact roundPos_isNan _
  · exact roundPos_isNan _

lemma fadd_finite_isNan (s t : Bool) (m n : ℕ) (e f : ℤ) :
    ((F64.finite s m e).fadd (F64.finite t n f)).isNan = false := by
  simp only [F64.fadd]
  split_ifs
  · rfl
  · exact roundQ_isNan _

lemma fmul_finite_isNan (s t : Bool) (m n : ℕ) (e f : ℤ) :
    ((F64.finite s m e).fmul (F64.finite t n f)).isNan = false := by
  simp only [F64.fmul]
  split_ifs
  · rfl
  · exact roundQ_isNan _

lemma fdiv_finite_isNan (s t : Bool) (m n : ℕ) (e f : ℤ) :
    ((F64.finite s m e).fdiv (F64.finite t n f)).isNan = false := by
  simp only [F64.fdiv]
  split_ifs
  · rfl
  · exact roundQ_isNan _

lemma finite_mantissa_ne_zero {s : Bool} {m : ℕ} {e : ℤ}
    (h : (F64.finite s m e).feq fzero = false) : m ≠ 0 := by
  intro hm
  subst hm
  simp [F64.feq, F64.toQ, fzero] at h

/-! ## Claim theorems: the float type, construction -/

/-- Counterexample to C2 as stated: converting NaN through the fallible
`TryFrom<f64>` conversion fails with `ZeroResult`, not with the NaN
failure kind `NotANumber` that the claim names. -/
theorem nzfloat_try_from_nan_cex :
    NzFloat.try_from F64.nan = .error .ZeroResult ∧
    NzFloat.try_from F64.nan ≠ .error .NotANumber := by
  refine ⟨by with_unfolding_all rfl, ?_⟩
  have h : NzFloat.try_from F64.nan = .error .ZeroResult := by with_unfolding_all rfl
  rw [h]
  decide

/-- C2 amended: the fallible conversion from a raw binary64 value into
`NzFloat` fails iff the input is `+0.0`, `-0.0` (under IEEE equality) or
NaN, and on failure it yields `ZeroResult` as the single failure kind
reused for both the zero case and the NaN case; it never yields
`NotANumber`. -/
theorem nzfloat_try_from_spec (v : F64) :
    (NzFloat.try_from v = .error .ZeroResult ↔
      (v.feq fzero = true ∨ v.isNan = true)) ∧
    (v.feq fzero = false → v.isNan = false → NzFloat.try_from v = .ok ⟨v⟩) ∧
    NzFloat.try_from v ≠ .error .NotANumber := by
  unfold NzFloat.try_from NzFloat.new
  split_ifs with h
  · rw [Bool.or_eq_true] at h
    refine ⟨by simp [h], ?_, by simp⟩
    intro h1 h2
    rw [h1, h2] at h
    simp at h
  · rw [Bool.or_eq_true, not_or, Bool.not_eq_true, Bool.not_eq_true] at h
    refine ⟨by simp [h.1, h.2], fun _ _ => rfl, by simp⟩

/-- Witness for C2's amended theorem at the valid input `3.0`. -/
theorem nzfloat_try_from_spec_witness :
    NzFloat.try_from (F64.finite false 3 0) = .ok ⟨F64.finite false 3 0⟩ :=
  (nzfloat_try_from_spec (F64.finite false 3 0)).2.1
    (by with_unfolding_all rfl) (by with_unfolding_all rfl)

/-- The shared shape of the four float checked operations, as a function of
the raw IEEE result `r`: `NotANumber` iff `r` is NaN, else `ZeroResult` iff
`r` is IEEE-equal to zero, else success with exactly `r`. -/
lemma wrapF_spec (r : F64) :
    ((if r.isNan then (.error .NotANumber : Except NzfError NzFloat)
        else if r.feq fzero then .error .ZeroResult else .ok ⟨r⟩) =
        .error .NotANumber ↔ r.isNan = true) ∧
    ((if r.isNan then (.error .NotANumber : Except NzfError NzFloat)
        else if r.feq fzero then .error .ZeroResult else .ok ⟨r⟩) =
        .error .ZeroResult ↔ (r.isNan = false ∧ r.feq fzero = true)) ∧
    (r.isNan = false → r.feq fzero = false →
      (if r.isNan then (.error .NotANumber : Except NzfError NzFloat)
        else if r.feq fzero then .error .ZeroResult else .ok ⟨r⟩) = .ok ⟨r⟩) := by
  split_ifs with h1 h2 <;> simp_all

/-- C7: for every pair of valid `NzFloat` values, each of `checked_add`,
`checked_sub`, `checked_mul`, `checked_div` computes the raw IEEE-754
result and fails with `NotANumber` iff it is NaN, fails with `ZeroResult`
iff it is (non-NaN and) IEEE-equal to zero (either signed zero), and
otherwise succeeds with exactly that raw result; in particular
`3.5 + (-3.5)` fails with `ZeroResult`, `7.0 / 2.0` succeeds with `3.5`,
and a division producing an infinity succeeds. -/
theorem nzfloat_checked_ops_spec (a b : NzFloat) (_ha : a.valid) (_hb : b.valid) :
    ((a.checked_add b = .error .NotANumber ↔ (a.value.fadd b.value).isNan = true) ∧
      (a.checked_add b = .error .ZeroResult ↔
        ((a.value.fadd b.value).isNan = false ∧ (a.value.fadd b.value).feq fzero = true)) ∧
      ((a.value.fadd b.value).isNan = false → (a.value.fadd b.value).feq fzero = false →
        a.checked_add b = .ok ⟨a.value.fadd b.value⟩)) ∧
    ((a.checked_sub b = .error .NotANumber ↔ (a.value.fsub b.value).isNan = true) ∧
      (a.checked_sub b = .error .ZeroResult ↔
        ((a.value.fsub b.value).isNan = false ∧ (a.value.fsub b.value).feq fzero = true)) ∧
      ((a.value.fsub b.value).isNan = false → (a.value.fsub b.value).feq fzero = false →
        a.checked_sub b = .ok ⟨a.value.fsub b.value⟩)) ∧
    ((a.checked_mul b = .error .NotANumber ↔ (a.value.fmul b.value).isNan = true) ∧
      (a.checked_mul b = .error .ZeroResult ↔
        ((a.value.fmul b.value).isNan = false ∧ (a.value.fmul b.value).feq fzero = true)) ∧
      ((a.value.fmul b.value).isNan = false → (a.value.fmul b.value).feq fzero = false →
        a.checked_mul b = .ok ⟨a.value.fmul b.value⟩)) ∧
    ((a.checked_div b = .error .NotANumber ↔ (a.value.fdiv b.value).isNan = true) ∧
      (a.checked_div b = .error .ZeroResult ↔
        ((a.value.fdiv b.value).isNan = false ∧ (a.value.fdiv b.value).feq fzero = true)) ∧
      ((a.value.fdiv b.value).isNan = false → (a.value.fdiv b.value).feq fzero = false →
        a.checked_div b = .ok ⟨a.value.fdiv b.value⟩)) ∧
    NzFloat.checked_add ⟨.finite false 7 (-1)⟩ ⟨.finite true 7 (-1)⟩ = .error .ZeroResult ∧
    NzFloat.checked_div ⟨.finite false 7 0⟩ ⟨.finite false 2 0⟩ =
      .ok ⟨.finite false (7 * 2 ^ 50) (-51)⟩ ∧
    F64.feq (.finite false (7 * 2 ^ 50) (-51)) (.finite false 7 (-1)) = true ∧
    NzFloat.checked_div ⟨.finite false 1 0⟩ ⟨.finite false 1 (-1074)⟩ = .ok ⟨.inf false⟩ := by
  exact ⟨wrapF_spec (a.value.fadd b.value), wrapF_spec (a.value.fsub b.value),
    wrapF_spec (a.value.fmul b.value), wrapF_spec (a.value.fdiv b.value),
    by with_unfolding_all rfl, by with_unfolding_all rfl,
    by with_unfolding_all rfl, by with_unfolding_all rfl⟩

/-- Witness for C7 at `1.0 + 2.0`. -/
theorem nzfloat_checked_ops_spec_witness :
    NzFloat.checked_add ⟨.finite false 1 0⟩ ⟨.finite false 1 1⟩ =
      .ok ⟨(F64.finite false 1 0).fadd (F64.finite false 1 1)⟩ :=
  ((nzfloat_checked_ops_spec ⟨.finite false 1 0⟩ ⟨.finite false 1 1⟩
      (by with_unfolding_all decide) (by with_unfolding_all decide)).1.2.2
    (by with_unfolding_all rfl) (by with_unfolding_all rfl))

/-! ## Claim theorems: reachability of the float NaN branch -/

lemma checked_add_eqF (a b : NzFloat) :
    a.checked_add b =
      (if (a.value.fadd b.value).isNan then .error .NotANumber
        else if (a.value.fadd b.value).feq fzero then .error .ZeroResult
        else .ok ⟨a.value.fadd b.value⟩) := rfl

lemma checked_sub_eqF (a b : NzFloat) :
    a.checked_sub b =
      (if (a.value.fsub b.value).isNan then .error .NotANumber
        else if (a.value.fsub b.value).feq fzero then .error .ZeroResult
        else .ok ⟨a.value.fsub b.value⟩) := rfl

lemma checked_mul_eqF (a b : NzFloat) :
    a.checked_mul b =
      (if (a.value.fmul b.value).isNan then .error .NotANumber
        else if (a.value.fmul b.value).feq fzero then .error .ZeroResult
        else .ok ⟨a.value.fmul b.value⟩) := rfl

lemma checked_div_eqF (a b : NzFloat) :
    a.checked_div b =
      (if (a.value.fdiv b.value).isNan then .error .NotANumber
        else if (a.value.fdiv b.value).feq fzero then .error .ZeroResult
        else .ok ⟨a.value.fdiv b.value⟩) := rfl

lemma fadd_nan_iff {x y : F64} (hx0 : x.feq fzero = false) (hxn : x.isNan = false)
    (hy0 : y.feq fzero = false) (hyn : y.isNan = false) :
    ((x.fadd y).isNan = true ↔ ∃ s, x = .inf s ∧ y = .inf (!s)) := by
  cases x with
  | nan => simp [F64.isNan] at hxn
  | zero s => simp [F64.feq, F64.toQ, fzero] at hx0
  | inf s =>
    cases y with
    | nan => simp [F64.isNan] at hyn
    | zero t => simp [F64.feq, F64.toQ, fzero] at hy0
    | inf t => cases s <;> cases t <;> simp [F64.fadd, F64.isNan]
    | finite t n f => simp [F64.fadd, F64.isNan]
  | finite s m e =>
    cases y with
    | nan => simp [F64.isNan] at hyn
    | zero t => simp [F64.feq, F64.toQ, fzero] at hy0
    | inf t => simp [F64.fadd, F64.isNan]
    | finite t n f => simp [fadd_finite_isNan]

lemma fsub_nan_iff {x y : F64} (hx0 : x.feq fzero = false) (hxn : x.isNan = false)
    (hy0 : y.feq fzero = false) (hyn : y.isNan = false) :
    ((x.fsub y).isNan = true ↔ ∃ s, x = .inf s ∧ y = .inf s) := by
  cases x with
  | nan => simp [F64.isNan] at hxn
  | zero s => simp [F64.feq, F64.toQ, fzero] at hx0
  | inf s =>
    cases y with
    | nan => simp [F64.isNan] at hyn
    | zero t => simp [F64.feq, F64.toQ, fzero] at hy0
    | inf t => cases s <;> cases t <;> simp [F64.fsub, F64.fadd, F64.fneg, F64.isNan]
    | finite t n f => simp [F64.fsub, F64.fadd, F64.fneg, F64.isNan]
  | finite s m e =>
    cases y with
    | nan => simp [F64.isNan] at hyn
    | zero t => simp [F64.feq, F64.toQ, fzero] at hy0
    | inf t => simp [F64.fsub, F64.fadd, F64.fneg, F64.isNan]
    | finite t n f => simp [F64.fsub, F64.fneg, fadd_finite_isNan]

lemma fmul_not_nan {x y : F64} (hx0 : x.feq fzero = false) (hxn : x.isNan = false)
    (hy0 : y.feq fzero = false) (hyn : y.isNan = false) :
    (x.fmul y).isNan = false := by
  cases x with
  | nan => simp [F64.isNan] at hxn
  | zero s => simp [F64.feq, F64.toQ, fzero] at hx0
  | inf s =>
    cases y with
    | nan => simp [F64.isNan] at hyn
    | zero t => simp [F64.feq, F64.toQ, fzero] at hy0
    | inf t => simp [F64.fmul, F64.isNan]
    | finite t n f => simp [F64.fmul, F64.isNan]
  | finite s m e =>
    cases y with
    | nan => simp [F64.isNan] at hyn
    | zero t => simp [F64.feq, F64.toQ, fzero] at hy0
    | inf t => simp [F64.fmul, F64.isNan]
    | finite t n f => simp [fmul_finite_isNan]

lemma fdiv_nan_iff {x y : F64} (hx0 : x.feq fzero = false) (hxn : x.isNan = false)
    (hy0 : y.feq fzero = false) (hyn : y.isNan = false) :
    ((x.fdiv y).isNan = true ↔ ((∃ s, x = .inf s) ∧ ∃ t, y = .inf t)) := by
  cases x with
  | nan => simp [F64.isNan] at hxn
  | zero s => simp [F64.feq, F64.toQ, fzero] at hx0
  | inf s =>
    cases y with
    | nan => simp [F64.isNan] at hyn
    | zero t => simp [F64.feq, F64.toQ, fzero] at hy0
    | inf t => simp [F64.fdiv, F64.isNan]
    | finite t n f => simp [F64.fdiv, F64.isNan]
  | finite s m e =>
    cases y with
    | nan => simp [F64.isNan] at hyn
    | zero t => simp [F64.feq, F64.toQ, fzero] at hy0
    | inf t => simp [F64.fdiv, F64.isNan]
    | finite t n f => simp [fdiv_finite_isNan]

/-- Counterexample to C1: `+∞` and `-∞` are valid `NzFloat` values (the
domain permits the infinities), yet `checked_add` on them computes
`∞ + (-∞) = NaN` and takes the `NotANumber` failure branch, so that branch
is reachable from valid inputs. -/
theorem nzfloat_nan_branch_cex :
    NzFloat.valid ⟨F64.inf false⟩ ∧ NzFloat.valid ⟨F64.inf true⟩ ∧
    NzFloat.checked_add ⟨F64.inf false⟩ ⟨F64.inf true⟩ = .error .NotANumber :=
  ⟨by with_unfolding_all decide, by with_unfolding_all decide,
    by with_unfolding_all rfl⟩

/-- C1 amended: for valid operands the NaN-producing patterns are exactly
the all-infinite ones — `checked_add` hits the `NotANumber` branch iff the
operands are opposite infinities, `checked_sub` iff they are
equal-signed infinities, `checked_div` iff both are infinite, and
`checked_mul` never does; in particular with at least one finite operand
the raw result of every operation is non-NaN, but the check is not
unreachable (not purely defensive). -/
theorem nzfloat_nan_reachability (a b : NzFloat) (ha : a.valid) (hb : b.valid) :
    (a.checked_add b = .error .NotANumber ↔
      ∃ s, a.value = .inf s ∧ b.value = .inf (!s)) ∧
    (a.checked_sub b = .error .NotANumber ↔
      ∃ s, a.value = .inf s ∧ b.value = .inf s) ∧
    a.checked_mul b ≠ .error .NotANumber ∧
    (a.checked_div b = .error .NotANumber ↔
      ((∃ s, a.value = .inf s) ∧ ∃ t, b.value = .inf t)) := by
  obtain ⟨ha0, han⟩ := ha
  obtain ⟨hb0, hbn⟩ := hb
  rw [checked_add_eqF, checked_sub_eqF, checked_mul_eqF, checked_div_eqF]
  refine ⟨?_, ?_, ?_, ?_⟩
  · rw [(wrapF_spec _).1]
    exact fadd_nan_iff ha0 han hb0 hbn
  · rw [(wrapF_spec _).1]
    exact fsub_nan_iff ha0 han hb0 hbn
  · rw [Ne, (wrapF_spec _).1]
    simp [fmul_not_nan ha0 han hb0 hbn]
  · rw [(wrapF_spec _).1]
    exact fdiv_nan_iff ha0 han hb0 hbn

/-- Witness for C1's amended theorem: `∞ / ∞` fails with `NotANumber`. -/
theorem nzfloat_nan_reachability_witness :
    NzFloat.checked_div ⟨F64.inf false⟩ ⟨F64.inf false⟩ = .error .NotANumber :=
  (nzfloat_nan_reachability ⟨F64.inf false⟩ ⟨F64.inf false⟩
      (by with_unfolding_all decide) (by with_unfolding_all decide)).2.2.2.mpr
    ⟨⟨false, rfl⟩, ⟨false, rfl⟩⟩

/-! ## Claim theorems: the float total order -/

lemma cmpZ_lt_iff {x y : ℤ} : cmpZ x y = .lt ↔ x < y := by
  unfold cmpZ; split_ifs <;> simp_all

lemma cmpZ_eq_iff {x y : ℤ} : cmpZ x y = .eq ↔ x = y := by
  unfold cmpZ; split_ifs <;> simp_all
  omega

lemma cmpQ_lt_iff {x y : ℚ} : cmpQ x y = .lt ↔ x < y := by
  unfold cmpQ; split_ifs <;> simp_all

lemma cmpQ_eq_iff {x y : ℚ} : cmpQ x y = .eq ↔ x = y := by
  unfold cmpQ; split_ifs <;> simp_all
  exact fun h => by simp [h] at *

lemma then_lt_iff {o p : Ordering} :
    o.then p = .lt ↔ (o = .lt ∨ (o = .eq ∧ p = .lt)) := by
  cases o <;> simp [Ordering.then]

lemma then_eq_iff {o p : Ordering} :
    o.then p = .eq ↔ (o = .eq ∧ p = .eq) := by
  cases o <;> simp [Ordering.then]

lemma ftotal_cmp_lt_iff (a b : F64) :
    a.ftotal_cmp b = .lt ↔
      (a.fkey.1 < b.fkey.1 ∨ (a.fkey.1 = b.fkey.1 ∧ a.fkey.2 < b.fkey.2)) := by
  unfold F64.ftotal_cmp
  rw [then_lt_iff, cmpZ_lt_iff, cmpZ_eq_iff, cmpQ_lt_iff]

lemma ftotal_cmp_eq_iff (a b : F64) :
    a.ftotal_cmp b = .eq ↔ (a.fkey.1 = b.fkey.1 ∧ a.fkey.2 = b.fkey.2) := by
  unfold F64.ftotal_cmp
  rw [then_eq_iff, cmpZ_eq_iff, cmpQ_eq_iff]

lemma fkey_eq_iff_feq {x y : F64} (hx0 : x.feq fzero = false) (hxn : x.isNan = false)
    (hy0 : y.feq fzero = false) (hyn : y.isNan = false) :
    (x.fkey.1 = y.fkey.1 ∧ x.fkey.2 = y.fkey.2) ↔ x.feq y = true := by
  cases x with
  | nan => simp [F64.isNan] at hxn
  | zero s => simp [F64.feq, F64.toQ, fzero] at hx0
  | inf s =>
    cases y with
    | nan => simp [F64.isNan] at hyn
    | zero t => simp [F64.feq, F64.toQ, fzero] at hy0
    | inf t => cases s <;> cases t <;> simp [F64.fkey, F64.feq]
    | finite t n f => cases s <;> cases t <;> norm_num [F64.fkey, F64.feq]
  | finite s m e =>
    cases y with
    | nan => simp [F64.isNan] at hyn
    | zero t => simp [F64.feq, F64.toQ, fzero] at hy0
    | inf t => cases s <;> cases t <;> norm_num [F64.fkey, F64.feq]
    | finite t n f =>
      have hmx : m ≠ 0 := finite_mantissa_ne_zero hx0
      have hny : n ≠ 0 := finite_mantissa_ne_zero hy0
      have h1 : 0 < (m : ℚ) * pow2 e :=
        mul_pos (by exact_mod_cast Nat.pos_of_ne_zero hmx) (pow2_pos e)
      have h2 : 0 < (n : ℚ) * pow2 f :=
        mul_pos (by exact_mod_cast Nat.pos_of_ne_zero hny) (pow2_pos f)
      cases s <;> cases t <;> simp [F64.fkey, F64.feq, F64.toQ] <;>
        (intro h; nlinarith [h1, h2])

/-- C8: the comparison from `Ord for NzFloat` (`total_cmp` on the wrapped
values) is a strict total order — irreflexive, transitive, total — over
the valid domain (non-zero, non-NaN, infinities included); it puts `-∞`
below every negative finite value and `+∞` above every positive finite
value, and its `eq` outcome coincides with plain IEEE numeric equality on
this domain. -/
theorem nzfloat_total_order (a b c : NzFloat)
    (ha : a.valid) (hb : b.valid) (_hc : c.valid) :
    ¬ a.lt a ∧
    (a.lt b → b.lt c → a.lt c) ∧
    (a.lt b ∨ a.cmp b = .eq ∨ b.lt a) ∧
    (a.cmp b = .eq ↔ a.eqb b = true) ∧
    (a.value = .inf true → (∃ m e, b.value = .finite true m e) → a.lt b) ∧
    (a.value = .inf false → (∃ m e, b.value = .finite false m e) → b.lt a) := by
  refine ⟨?_, ?_, ?_, ?_, ?_, ?_⟩
  · simp only [NzFloat.lt, NzFloat.cmp, ftotal_cmp_lt_iff]
    rintro (h | ⟨h1, h2⟩)
    · exact lt_irrefl _ h
    · exact lt_irrefl _ h2
  · simp only [NzFloat.lt, NzFloat.cmp, ftotal_cmp_lt_iff]
    rintro (h1 | ⟨h1, h1q⟩) (h2 | ⟨h2, h2q⟩)
    · exact Or.inl (h1.trans h2)
    · exact Or.inl (h2 ▸ h1)
    · exact Or.inl (h1 ▸ h2)
    · exact Or.inr ⟨h1.trans h2, h1q.trans h2q⟩
  · simp only [NzFloat.lt, NzFloat.cmp, ftotal_cmp_lt_iff, ftotal_cmp_eq_iff]
    rcases lt_trichotomy a.value.fkey.1 b.value.fkey.1 with h | h | h
    · exact Or.inl (Or.inl h)
    · rcases lt_trichotomy a.value.fkey.2 b.value.fkey.2 with h2 | h2 | h2
      · exact Or.inl (Or.inr ⟨h, h2⟩)
      · exact Or.inr (Or.inl ⟨h, h2⟩)
      · exact Or.inr (Or.inr (Or.inr ⟨h.symm, h2⟩))
    · exact Or.inr (Or.inr (Or.inl h))
  · simp only [NzFloat.cmp, NzFloat.eqb, ftotal_cmp_eq_iff]
    exact fkey_eq_iff_feq ha.1 ha.2 hb.1 hb.2
  · rintro h1 ⟨m, e, h2⟩
    simp only [NzFloat.lt, NzFloat.cmp, ftotal_cmp_lt_iff, h1, h2]
    left
    norm_num [F64.fkey]
  · rintro h1 ⟨m, e, h2⟩
    simp only [NzFloat.lt, NzFloat.cmp, ftotal_cmp_lt_iff, h1, h2]
    left
    norm_num [F64.fkey]

/-- Witness for C8: `+∞` sits above the positive finite value `1.0`. -/
theorem nzfloat_total_order_witness :
    NzFloat.lt ⟨F64.finite false 1 0⟩ ⟨F64.inf false⟩ :=
  (nzfloat_total_order ⟨F64.inf false⟩ ⟨F64.finite false 1 0⟩ ⟨F64.inf false⟩
      (by with_unfolding_all decide) (by with_unfolding_all decide)
      (by with_unfolding_all decide)).2.2.2.2.2 rfl ⟨1, 0, rfl⟩
